import Mathlib

/-!
# Mimir commit-graph engine: a shallow embedding

This file embeds the service layer of the `mimir` context-tracking engine
(`mimir/services/{project_service,task_service,branch_service,commit_service}.py`)
as pure functions over an explicit relational state, and proves (or refutes)
the specified properties of the commit-graph and branch-pointer engine.

Modelling conventions:
* The five relations (`projects`, `tasks`, `branches`, `context_commits`,
  `commit_parents`) of the migrated schema (alembic revisions 001–003) are
  lists of records carried in a single `DB` state.
* Surrogate identifiers (`uuid4` in the source) are modelled by a fresh-id
  counter `nextId`; `created_at` timestamps by a logical clock `clock`
  (each insert advances it, matching `datetime.utcnow` monotonicity).
* SQLAlchemy queries ending in `.first()` become `List.find?`; `.all()`
  becomes `List.filter`; `session.add` appends; `session.delete` removes the
  found row (`List.eraseP`); an attribute assignment on an ORM row becomes a
  pointwise update keyed by the row's primary key.
* Each service method that raises `ValueError` is modelled with `Except Err`;
  the `Err` constructor records which error-kind the message denotes
  (`not found` → `.notFound`, `already exists` → `.duplicateName`,
  `Cannot delete main branch` → `.forbidden`).
* The recursive CTE in `CommitService.get_history` is modelled level by
  level: the working table holding the rows of depth `d` is expanded into
  the rows of depth `d + 1` exactly while `d < limit`, mirroring the
  `WHERE ch.depth < :limit` guard; `UNION ALL` keeps multiplicities.
-/

/-- A row of the `projects` table (alembic revision 003): surrogate id,
globally unique name, optional parent project, creation time. -/
structure DBProject where
  id : Nat
  name : String
  parentId : Option Nat
  createdAt : Nat
deriving DecidableEq, Repr

/-- A row of the `tasks` table (alembic revisions 001–003): surrogate id,
owning project, per-project-unique name, optional external reference. -/
structure DBTask where
  id : Nat
  projectId : Nat
  name : String
  externalId : Option String
  createdAt : Nat
deriving DecidableEq, Repr

/-- A row of the `branches` table: named mutable pointer into a task's
commit graph; `headCommitId = none` means the branch has no commits yet. -/
structure DBBranch where
  id : Nat
  taskId : Nat
  name : String
  headCommitId : Option Nat
  createdAt : Nat
deriving DecidableEq, Repr

/-- A row of the `context_commits` table (`ContextCommit` in `models.py`):
an immutable context snapshot with authorship and optional metrics. -/
structure DBCommit where
  id : Nat
  taskId : Nat
  message : String
  fullContext : String
  author : String
  cognitiveLoad : Option Int
  uncertainty : Option Int
  createdAt : Nat
deriving DecidableEq, Repr

/-- A row of the `commit_parents` table (`CommitParent` in `models.py`):
a directed edge from a child commit to one of its parents. -/
structure DBParentLink where
  childId : Nat
  parentId : Nat
deriving DecidableEq, Repr

/-- The database state the services operate on, together with the fresh-id
counter standing in for `uuid4` and a logical clock standing in for
`datetime.utcnow`. -/
structure DB where
  projects : List DBProject
  tasks : List DBTask
  branches : List DBBranch
  commits : List DBCommit
  links : List DBParentLink
  nextId : Nat
  clock : Nat
deriving DecidableEq, Repr

/-- The empty database produced by `init_db` (all tables empty). -/
def DB.empty : DB := ⟨[], [], [], [], [], 0, 0⟩

/-- Error kinds carried by the `ValueError`s the services raise. The
constructor names follow the specification's error taxonomy; each service
function's doc comment records which message maps to which kind. -/
inductive Err where
  | notFound
  | duplicateName
  | forbidden
deriving DecidableEq, Repr

instance {ε α : Type} [DecidableEq ε] [DecidableEq α] : DecidableEq (Except ε α) :=
  fun x y =>
    match x, y with
    | .ok a, .ok b =>
      if h : a = b then .isTrue (by rw [h]) else .isFalse (fun hc => by cases hc; exact h rfl)
    | .error a, .error b =>
      if h : a = b then .isTrue (by rw [h]) else .isFalse (fun hc => by cases hc; exact h rfl)
    | .ok _, .error _ => .isFalse (fun hc => by cases hc)
    | .error _, .ok _ => .isFalse (fun hc => by cases hc)

namespace DB

/-- `session.query(Project).filter(Project.id == id).first()`. -/
def findProject (db : DB) (id : Nat) : Option DBProject :=
  db.projects.find? (fun p => p.id = id)

/-- `session.query(Project).filter(Project.name == name).first()`. -/
def findProjectByName (db : DB) (name : String) : Option DBProject :=
  db.projects.find? (fun p => p.name = name)

/-- `session.query(Task).filter(Task.id == id).first()`. -/
def findTask (db : DB) (id : Nat) : Option DBTask :=
  db.tasks.find? (fun t => t.id = id)

/-- `session.query(Task).filter(Task.project_id == pid, Task.name == name).first()`. -/
def findTaskInProject (db : DB) (pid : Nat) (name : String) : Option DBTask :=
  db.tasks.find? (fun t => t.projectId = pid ∧ t.name = name)

/-- `session.query(Branch).filter(and_(Branch.task_id == tid, Branch.name == name)).first()`
(`BranchService.get_branch`). -/
def getBranch (db : DB) (tid : Nat) (name : String) : Option DBBranch :=
  db.branches.find? (fun b => b.taskId = tid ∧ b.name = name)

/-- `CommitService.get_commit`: point lookup of a commit by id, `none` if absent. -/
def getCommit (db : DB) (id : Nat) : Option DBCommit :=
  db.commits.find? (fun c => c.id = id)

end DB

/-- `ProjectService.create_project`: fails with `already exists`
(`.duplicateName`) when the name is taken, with `not found` (`.notFound`)
when a parent id is supplied but does not resolve; otherwise inserts the
project row. -/
def createProject (db : DB) (name : String) (parentId : Option Nat) :
    Except Err (DB × Nat) :=
  match db.findProjectByName name with
  | some _ => .error .duplicateName
  | none =>
    match parentId with
    | some pid =>
      match db.findProject pid with
      | none => .error .notFound
      | some _ => insert
    | none => insert
where
  /-- `session.add(Project(name=name, parent_id=parent_id))`. -/
  insert : Except Err (DB × Nat) :=
    let p : DBProject := ⟨db.nextId, name, parentId, db.clock⟩
    .ok ({ db with projects := db.projects ++ [p],
                   nextId := db.nextId + 1, clock := db.clock + 1 }, p.id)

/-- `TaskService.create_task`: fails with `not found` (`.notFound`) when the
project does not resolve, with `already exists in this project`
(`.duplicateName`) when a task of that name already exists in the project;
otherwise inserts the task row and, in the same transaction, a branch row
named `"main"` with a null head. The `author` argument is accepted by the
source function but stored nowhere (the `tasks` table has no author column). -/
def createTask (db : DB) (projectId : Nat) (name : String) (author : String)
    (externalId : Option String) : Except Err (DB × Nat) :=
  match db.findProject projectId with
  | none => .error .notFound
  | some _ =>
    match db.findTaskInProject projectId name with
    | some _ => .error .duplicateName
    | none =>
      let _ := author
      let t : DBTask := ⟨db.nextId, projectId, name, externalId, db.clock⟩
      let b : DBBranch := ⟨db.nextId + 1, t.id, "main", none, db.clock + 1⟩
      .ok ({ db with tasks := db.tasks ++ [t],
                     branches := db.branches ++ [b],
                     nextId := db.nextId + 2, clock := db.clock + 2 }, t.id)

/-- `BranchService.create_branch`: fails with `not found` (`.notFound`) when
the task does not resolve, with `already exists` (`.duplicateName`) when the
task already has a branch of that name; otherwise inserts the branch row
with `head_commit_id = from_commit_id`. No check that `from_commit_id`
resolves to a commit is performed. -/
def createBranch (db : DB) (taskId : Nat) (name : String)
    (fromCommitId : Option Nat) : Except Err (DB × Nat) :=
  match db.findTask taskId with
  | none => .error .notFound
  | some _ =>
    match db.getBranch taskId name with
    | some _ => .error .duplicateName
    | none =>
      let b : DBBranch := ⟨db.nextId, taskId, name, fromCommitId, db.clock⟩
      .ok ({ db with branches := db.branches ++ [b],
                     nextId := db.nextId + 1, clock := db.clock + 1 }, b.id)

/-- `BranchService.delete_branch`: returns `false` when the branch is not
found; raises `Cannot delete main branch` (`.forbidden`) when the name is
`"main"`; otherwise deletes the found branch row and returns `true`. Note
the source checks existence *before* the `"main"` guard. -/
def deleteBranch (db : DB) (taskId : Nat) (name : String) :
    Except Err (DB × Bool) :=
  match db.getBranch taskId name with
  | none => .ok (db, false)
  | some _ =>
    if name = "main" then .error .forbidden
    else
      let brs := db.branches.eraseP (fun b => b.taskId = taskId ∧ b.name = name)
      .ok ({ db with branches := brs }, true)

/-- `BranchService.rename_branch`: returns `none` when the old name is not
found; fails with `already exists` (`.duplicateName`) when the new name is
taken within the task; otherwise sets the found branch row's `name` to the
new name. There is no guard against renaming `"main"`. -/
def renameBranch (db : DB) (taskId : Nat) (oldName newName : String) :
    Except Err (DB × Option Nat) :=
  match db.getBranch taskId oldName with
  | none => .ok (db, none)
  | some b =>
    match db.getBranch taskId newName with
    | some _ => .error .duplicateName
    | none =>
      let brs := db.branches.map
        (fun br => if br.id = b.id then { br with name := newName } else br)
      .ok ({ db with branches := brs }, some b.id)

/-- `CommitService.create_commit`: fails with `not found` (`.notFound`) when
the task or the branch does not resolve; otherwise inserts the commit row
with the supplied fields, inserts one `commit_parents` edge
`(new_commit, old_head)` exactly when the branch's `head_commit_id` was
non-null (the Python truthiness test `if branch.head_commit_id:` on a UUID
is a non-`None` test), and sets the branch row's head to the new commit. -/
def createCommit (db : DB) (taskId : Nat) (branchName message context author : String)
    (cognitiveLoad uncertainty : Option Int) : Except Err (DB × Nat) :=
  match db.findTask taskId with
  | none => .error .notFound
  | some _ =>
    match db.getBranch taskId branchName with
    | none => .error .notFound
    | some b =>
      let c : DBCommit := ⟨db.nextId, taskId, message, context, author,
                           cognitiveLoad, uncertainty, db.clock⟩
      let links := match b.headCommitId with
        | some h => db.links ++ [⟨c.id, h⟩]
        | none => db.links
      let brs := db.branches.map
        (fun br => if br.id = b.id then { br with headCommitId := some c.id } else br)
      .ok ({ db with commits := db.commits ++ [c], links := links, branches := brs,
                     nextId := db.nextId + 1, clock := db.clock + 1 }, c.id)

/-- `CommitService.get_commit_parents`: the empty list when the commit does
not resolve; otherwise the join of `context_commits` with `commit_parents`
on `id = parent_id` filtered by `child_id = commit_id` — one returned
commit per matching edge row. -/
def getCommitParents (db : DB) (commitId : Nat) : List DBCommit :=
  match db.getCommit commitId with
  | none => []
  | some _ =>
    (db.links.filter (fun e => e.childId = commitId)).filterMap
      (fun e => db.commits.find? (fun c => c.id = e.parentId))

/-- `CommitService.merge_commit`: fails with `not found` (`.notFound`) when
the target branch does not resolve or the source commit does not resolve,
and with `has no commits` (also a `ValueError`; modelled `.forbidden`
following the specification's taxonomy for merging into a head-less branch)
when the target head is null. Otherwise inserts a commit row whose
`full_context` is the literal empty string (the source passes
`full_context=""` and accepts no context argument), inserts the two edges
`(new, old_target_head)` and `(new, source_commit_id)`, and sets the target
branch row's head to the new commit. -/
def mergeCommit (db : DB) (taskId : Nat) (targetBranch : String)
    (sourceCommitId : Nat) (message author : String) : Except Err (DB × Nat) :=
  match db.getBranch taskId targetBranch with
  | none => .error .notFound
  | some b =>
    match b.headCommitId with
    | none => .error .forbidden
    | some oldHead =>
      match db.getCommit sourceCommitId with
      | none => .error .notFound
      | some _ =>
        let c : DBCommit := ⟨db.nextId, taskId, message, "", author,
                             none, none, db.clock⟩
        let links := db.links ++ [⟨c.id, oldHead⟩, ⟨c.id, sourceCommitId⟩]
        let brs := db.branches.map
          (fun br => if br.id = b.id then { br with headCommitId := some c.id } else br)
        .ok ({ db with commits := db.commits ++ [c], links := links, branches := brs,
                       nextId := db.nextId + 1, clock := db.clock + 1 }, c.id)

/-! ## The history CTE

`CommitService.get_history` pushes the ancestry walk into a recursive SQL
CTE.  Its base case selects the row of `context_commits` whose id is the
branch head, at depth 1; its recursive case joins the working table (the
rows of depth `d`) against `commit_parents` on `child_id` and against
`context_commits` on `parent_id`, producing the rows of depth `d + 1`,
guarded by `WHERE ch.depth < :limit`.  `UNION ALL` keeps one row per
derivation, so multiplicities are per-path.  The final `SELECT` orders by
`depth` ascending then `created_at` descending. -/

/-- One recursive-case step of the CTE: the parents, per edge row, of each
id in the working table, kept only when they resolve in `context_commits`
(the join with `cc`). Multiplicity: one output element per matching
`commit_parents` row. -/
def DB.expandStep (db : DB) (frontier : List Nat) : List Nat :=
  frontier.flatMap (fun i =>
    ((db.links.filter (fun e => e.childId = i)).map (fun e => e.parentId)).filter
      (fun p => (db.getCommit p).isSome))

/-- The working table of the CTE after `n` recursive steps from `frontier`. -/
def DB.cteLevel (db : DB) (frontier : List Nat) : Nat → List Nat
  | 0 => frontier
  | n + 1 => db.expandStep (db.cteLevel frontier n)

/-- All rows `(commit id, depth)` the CTE emits: the working table at depth
`d` is expanded while `d < limit`, i.e. the emitted depths are
`1, …, max limit 1` (the base row is emitted before the guard is tested,
so even `limit ≤ 1` keeps depth 1). -/
def DB.cteRows (db : DB) (frontier : List Nat) (d : Nat) : Nat → List (Nat × Nat)
  | 0 => frontier.map (fun i => (i, d))
  | n + 1 => frontier.map (fun i => (i, d)) ++ db.cteRows (db.expandStep frontier) (d + 1) n

/-- The `created_at` field of the commit a row refers to (rows carry ids;
the CTE carries `cc.created_at` along, which is what `ORDER BY` reads). -/
def DB.rowCreatedAt (db : DB) (i : Nat) : Nat :=
  ((db.getCommit i).map DBCommit.createdAt).getD 0

/-- The `ORDER BY depth, created_at DESC` comparison on emitted rows
`(commit id, depth)`. -/
def DB.rowLE (db : DB) (a b : Nat × Nat) : Bool :=
  a.2 < b.2 || (a.2 = b.2 && db.rowCreatedAt b.1 ≤ db.rowCreatedAt a.1)

/-- `CommitService.get_history`: the empty list when the branch does not
resolve or has a null head; otherwise the CTE rows sorted by depth
ascending and creation time descending (SQL leaves the order of ties
unspecified; a stable insertion sort determinizes it). Each element is
`(commit id, depth)`; the source rebuilds `ContextCommit` values from the
rows, which adds no information beyond the id. -/
def getHistory (db : DB) (taskId : Nat) (branchName : String) (limit : Nat) :
    List (Nat × Nat) :=
  match db.getBranch taskId branchName with
  | none => []
  | some b =>
    match b.headCommitId with
    | none => []
    | some h =>
      let base := if (db.getCommit h).isSome then [h] else []
      let rows := db.cteRows base 1 (limit - 1)
      rows.insertionSort (fun a b => db.rowLE a b = true)

/-- The ids `get_history` returns, in order. -/
def getHistoryIds (db : DB) (taskId : Nat) (branchName : String) (limit : Nat) :
    List Nat :=
  (getHistory db taskId branchName limit).map (fun r => r.1)

/-! ## Project hierarchy -/

/-- `ProjectService.list_child_projects`: direct children of a project,
ordered by name. -/
def DB.listChildProjects (db : DB) (parentId : Nat) : List DBProject :=
  (db.projects.filter (fun p => p.parentId = some parentId)).insertionSort
    (fun a b => a.name ≤ b.name)

/-- The tree `ProjectService.get_project_hierarchy` assembles: a node per
resolved project with its recursively assembled children, or the empty
dictionary `{}` the source returns for an unresolved id. -/
inductive HTree where
  | missing
  | node (id : Nat) (name : String) (parentId : Option Nat) (children : List HTree)

/-- `ProjectService.get_project_hierarchy`, with explicit recursion fuel:
the source recurses through `children` with no depth cap and no visited
set, so the recursion is well-defined only where some finite fuel suffices;
`none` means the given fuel was exhausted before the recursion returned. -/
def getProjectHierarchyFuel (db : DB) : Nat → Nat → Option HTree
  | 0, _ => none
  | fuel + 1, pid =>
    match db.findProject pid with
    | none => some .missing
    | some p =>
      match (db.listChildProjects pid).mapM
          (fun c => getProjectHierarchyFuel db fuel c.id) with
      | none => none
      | some ts => some (.node p.id p.name p.parentId ts)

/-! ## Path counting for the history CTE -/

/-- The number of backward paths of length `n` from `a` to `c` following
`commit_parents` edges whose parent endpoint resolves (one step per edge
row, matching the CTE's join multiplicity). -/
def DB.pathCount (db : DB) : Nat → Nat → Nat → Nat
  | 0, a, c => if a = c then 1 else 0
  | n + 1, a, c =>
    (((db.links.filter (fun e => e.childId = a)).map (fun e => e.parentId)).filter
      (fun p => (db.getCommit p).isSome)).foldr (fun b acc => db.pathCount n b c + acc) 0

/-! ## Concrete scenarios and the reachable-state relation -/

/-- The specification's walkthrough scenario, executed through the service
functions: project `"P"`, task `"T1"` (ids: project 0, task 1, branch
`main` 2), commit `c1` (id 3) on `main`, branch `"feature"` (id 4) forked
from `c1`, commit `c2` (id 5) on `feature`, and `c2` merged into `main`
(merge commit id 6). The resulting graph is a diamond: both `6 → 3` and
`6 → 5 → 3` are ancestry paths. -/
def scenarioMerge : Except Err DB := do
  let (d1, p) ← createProject DB.empty "P" none
  let (d2, t) ← createTask d1 p "T1" "alice" none
  let (d3, c1) ← createCommit d2 t "main" "init" "hello" "alice" none none
  let (d4, _) ← createBranch d3 t "feature" (some c1)
  let (d5, c2) ← createCommit d4 t "feature" "work" "hello world" "alice" none none
  let (_d6, _) ← mergeCommit d5 t "main" c2 "merge feature" "alice"
  pure _d6

/-- The database state the walkthrough scenario ends in. -/
def dbMergeScenario : DB :=
  match scenarioMerge with
  | .ok d => d
  | .error _ => DB.empty

/-- The state reached from an empty database by `create_project "P"`,
`create_task "T1"`, then `rename_branch(task, "main", "dev")`. -/
def dbRenamed : DB :=
  { projects := [⟨0, "P", none, 0⟩]
    tasks := [⟨1, 0, "T1", none, 1⟩]
    branches := [⟨2, 1, "dev", none, 2⟩]
    commits := [], links := [], nextId := 3, clock := 3 }

/-- A stored project structure whose parent links form a two-cycle:
project 0 is the parent of project 1 and vice versa. Not constructible
through `create_project` (which only accepts an existing parent), but a
legal instance of the persisted schema. -/
def dbCyclic : DB :=
  { projects := [⟨0, "A", some 1, 0⟩, ⟨1, "B", some 0, 1⟩]
    tasks := [], branches := [], commits := [], links := [],
    nextId := 2, clock := 2 }

/-- The pairing invariant of §3: every stored task has a branch named
`"main"`. -/
def MainInv (db : DB) : Prop :=
  ∀ t ∈ db.tasks, ∃ b ∈ db.branches, b.taskId = t.id ∧ b.name = "main"

instance (db : DB) : Decidable (MainInv db) := by
  unfold MainInv; infer_instance

/-- One core mutating operation, as executed by the services (only
successful executions change the state). -/
inductive Step : DB → DB → Prop where
  | proj (db db' : DB) (name : String) (parentId : Option Nat) (id : Nat)
      (h : createProject db name parentId = .ok (db', id)) : Step db db'
  | task (db db' : DB) (projectId : Nat) (name author : String)
      (externalId : Option String) (id : Nat)
      (h : createTask db projectId name author externalId = .ok (db', id)) : Step db db'
  | branch (db db' : DB) (taskId : Nat) (name : String) (fromCommitId : Option Nat)
      (id : Nat) (h : createBranch db taskId name fromCommitId = .ok (db', id)) :
      Step db db'
  | delBranch (db db' : DB) (taskId : Nat) (name : String) (r : Bool)
      (h : deleteBranch db taskId name = .ok (db', r)) : Step db db'
  | renBranch (db db' : DB) (taskId : Nat) (oldName newName : String)
      (r : Option Nat) (h : renameBranch db taskId oldName newName = .ok (db', r)) :
      Step db db'
  | commit (db db' : DB) (taskId : Nat) (branchName message context author : String)
      (cl unc : Option Int) (id : Nat)
      (h : createCommit db taskId branchName message context author cl unc
             = .ok (db', id)) : Step db db'
  | merge (db db' : DB) (taskId : Nat) (targetBranch : String) (sourceCommitId : Nat)
      (message author : String) (id : Nat)
      (h : mergeCommit db taskId targetBranch sourceCommitId message author
             = .ok (db', id)) : Step db db'

/-- States reachable from the empty database by the core operations. -/
inductive Reach : DB → Prop where
  | init : Reach DB.empty
  | step (db db' : DB) (hr : Reach db) (hs : Step db db') : Reach db'

/-- One core mutating operation, `rename_branch` excluded. -/
inductive StepNR : DB → DB → Prop where
  | proj (db db' : DB) (name : String) (parentId : Option Nat) (id : Nat)
      (h : createProject db name parentId = .ok (db', id)) : StepNR db db'
  | task (db db' : DB) (projectId : Nat) (name author : String)
      (externalId : Option String) (id : Nat)
      (h : createTask db projectId name author externalId = .ok (db', id)) :
      StepNR db db'
  | branch (db db' : DB) (taskId : Nat) (name : String) (fromCommitId : Option Nat)
      (id : Nat) (h : createBranch db taskId name fromCommitId = .ok (db', id)) :
      StepNR db db'
  | delBranch (db db' : DB) (taskId : Nat) (name : String) (r : Bool)
      (h : deleteBranch db taskId name = .ok (db', r)) : StepNR db db'
  | commit (db db' : DB) (taskId : Nat) (branchName message context author : String)
      (cl unc : Option Int) (id : Nat)
      (h : createCommit db taskId branchName message context author cl unc
             = .ok (db', id)) : StepNR db db'
  | merge (db db' : DB) (taskId : Nat) (targetBranch : String) (sourceCommitId : Nat)
      (message author : String) (id : Nat)
      (h : mergeCommit db taskId targetBranch sourceCommitId message author
             = .ok (db', id)) : StepNR db db'

/-- States reachable from the empty database without ever renaming a
branch. -/
inductive ReachNR : DB → Prop where
  | init : ReachNR DB.empty
  | step (db db' : DB) (hr : ReachNR db) (hs : StepNR db db') : ReachNR db'

/-- The state reached from an empty database by `create_project "P"` and
`create_task "T1"`: one project, one task, its `main` branch with a null
head. -/
def dbBase : DB :=
  { projects := [⟨0, "P", none, 0⟩]
    tasks := [⟨1, 0, "T1", none, 1⟩]
    branches := [⟨2, 1, "main", none, 2⟩]
    commits := [], links := [], nextId := 3, clock := 3 }

/-- Two projects `"P"` (id 0) and `"Q"` (id 1), with a task `"T1"` (id 2)
already present in `"P"`. -/
def dbTwoProjects : DB :=
  { projects := [⟨0, "P", none, 0⟩, ⟨1, "Q", none, 1⟩]
    tasks := [⟨2, 0, "T1", none, 2⟩]
    branches := [⟨3, 2, "main", none, 3⟩]
    commits := [], links := [], nextId := 4, clock := 4 }

/-- The walkthrough scenario just before the merge: commit `c1` (id 3) on
`main`, branch `feature` (id 4) at commit `c2` (id 5). -/
def scenarioPreMerge : Except Err DB := do
  let (d1, p) ← createProject DB.empty "P" none
  let (d2, t) ← createTask d1 p "T1" "alice" none
  let (d3, c1) ← createCommit d2 t "main" "init" "hello" "alice" none none
  let (d4, _) ← createBranch d3 t "feature" (some c1)
  let (_d5, _) ← createCommit d4 t "feature" "work" "hello world" "alice" none none
  pure _d5

/-- The database state just before the merge of the walkthrough scenario. -/
def dbPreMerge : DB :=
  match scenarioPreMerge with
  | .ok d => d
  | .error _ => DB.empty

/-- The one-task state with a second branch `"feature"` besides `main`. -/
def dbTwoBranches : DB :=
  { projects := [⟨0, "P", none, 0⟩]
    tasks := [⟨1, 0, "T1", none, 1⟩]
    branches := [⟨2, 1, "main", none, 2⟩, ⟨3, 1, "feature", none, 3⟩]
    commits := [], links := [], nextId := 4, clock := 4 }

/-- An acyclic two-project store: `"B"` (id 1) is a child of root `"A"`
(id 0). -/
def dbAcyclicPair : DB :=
  { projects := [⟨0, "A", none, 0⟩, ⟨1, "B", some 0, 1⟩]
    tasks := [], branches := [], commits := [], links := [],
    nextId := 2, clock := 2 }

/-! ## List helper lemmas -/

theorem find?_map_of_pred_inv {α : Type} (f : α → α) (p : α → Bool) (l : List α)
    (hp : ∀ a, p (f a) = p a) : (l.map f).find? p = (l.find? p).map f := by
  have hpf : p ∘ f = p := funext hp
  rw [List.find?_map, hpf]

/-! ## C4: ordinary commit creation -/

/-- **C4.** For every existing task and branch, `create_commit` inserts a
new Commit with the supplied fields, inserts exactly one ParentLink edge
`(new_commit, old_head)` if and only if the branch's `head_commit_id` was
non-null beforehand (zero edges if it was null), and sets the branch's
`head_commit_id` to the new commit's id. -/
theorem create_commit_links_old_head_and_advances
    (db : DB) (taskId : Nat) (branchName message context author : String)
    (cl unc : Option Int) (b : DBBranch)
    (htask : (db.findTask taskId).isSome = true)
    (hbr : db.getBranch taskId branchName = some b) :
    ∃ db', createCommit db taskId branchName message context author cl unc
        = .ok (db', db.nextId) ∧
      db'.commits = db.commits ++
        [⟨db.nextId, taskId, message, context, author, cl, unc, db.clock⟩] ∧
      (∀ h, b.headCommitId = some h → db'.links = db.links ++ [⟨db.nextId, h⟩]) ∧
      (b.headCommitId = none → db'.links = db.links) ∧
      db'.getBranch taskId branchName
        = some { b with headCommitId := some db.nextId } ∧
      db'.tasks = db.tasks ∧ db'.projects = db.projects := by
  obtain ⟨tk, htk⟩ := Option.isSome_iff_exists.mp htask
  simp only [createCommit, htk, hbr]
  refine ⟨_, rfl, rfl, ?_, ?_, ?_, rfl, rfl⟩
  · intro h hh
    simp [hh]
  · intro hh
    simp [hh]
  · simp only [DB.getBranch] at hbr ⊢
    rw [find?_map_of_pred_inv]
    · rw [hbr]
      simp
    · intro a
      by_cases h : a.id = b.id <;> simp [h]

/-- Witness for C4: committing on `main` of the one-task state. -/
theorem create_commit_links_old_head_and_advances_witness :
    (dbBase.findTask 1).isSome = true ∧
    dbBase.getBranch 1 "main" = some ⟨2, 1, "main", none, 2⟩ ∧
    (∃ db', createCommit dbBase 1 "main" "init" "hello" "alice" none none
        = .ok (db', 3) ∧
      db'.commits = dbBase.commits ++
        [⟨3, 1, "init", "hello", "alice", none, none, 3⟩] ∧
      (∀ h, (⟨2, 1, "main", none, 2⟩ : DBBranch).headCommitId = some h →
        db'.links = dbBase.links ++ [⟨3, h⟩]) ∧
      ((⟨2, 1, "main", none, 2⟩ : DBBranch).headCommitId = none →
        db'.links = dbBase.links) ∧
      db'.getBranch 1 "main" = some ⟨2, 1, "main", some 3, 2⟩ ∧
      db'.tasks = dbBase.tasks ∧ db'.projects = dbBase.projects) :=
  ⟨rfl, rfl,
    create_commit_links_old_head_and_advances dbBase 1 "main" "init" "hello"
      "alice" none none ⟨2, 1, "main", none, 2⟩ (by decide) (by decide)⟩

/-! ## C10: branch creation does not validate `from_commit_id` -/

/-- **C10.** For every existing task and fresh branch name, `create_branch`
succeeds for any supplied `from_commit_id` without checking that a Commit
with that id exists: no error is raised, and the new branch's
`head_commit_id` is the supplied id. (`fromId` ranges over all ids,
resolvable or not.) -/
theorem create_branch_accepts_unresolved_from_commit
    (db : DB) (taskId : Nat) (name : String) (fromId : Nat)
    (htask : (db.findTask taskId).isSome = true)
    (hfree : db.getBranch taskId name = none) :
    ∃ db', createBranch db taskId name (some fromId) = .ok (db', db.nextId) ∧
      db'.branches = db.branches ++
        [⟨db.nextId, taskId, name, some fromId, db.clock⟩] ∧
      db'.getBranch taskId name
        = some ⟨db.nextId, taskId, name, some fromId, db.clock⟩ ∧
      db'.commits = db.commits := by
  obtain ⟨tk, htk⟩ := Option.isSome_iff_exists.mp htask
  simp only [createBranch, htk, hfree]
  refine ⟨_, rfl, rfl, ?_, rfl⟩
  simp only [DB.getBranch] at hfree ⊢
  rw [List.find?_append, hfree]
  simp

/-- Witness for C10: forking from the phantom commit id 99 in a state with
no commits at all; the branch is created with `head_commit_id = 99`. -/
theorem create_branch_accepts_unresolved_from_commit_witness :
    dbBase.getCommit 99 = none ∧
    (dbBase.findTask 1).isSome = true ∧
    dbBase.getBranch 1 "feature" = none ∧
    (∃ db', createBranch dbBase 1 "feature" (some 99) = .ok (db', 3) ∧
      db'.branches = dbBase.branches ++ [⟨3, 1, "feature", some 99, 3⟩] ∧
      db'.getBranch 1 "feature" = some ⟨3, 1, "feature", some 99, 3⟩ ∧
      db'.commits = dbBase.commits) :=
  ⟨rfl, rfl, rfl,
    create_branch_accepts_unresolved_from_commit dbBase 1 "feature" 99
      (by decide) (by decide)⟩

/-! ## C7: task-name uniqueness is scoped per project -/

/-- **C7.** Task name uniqueness is scoped per Project, not global:
creating a second Task with the same name in the same Project fails with
`DuplicateName`, while creating a Task with that same name in a different
Project (where the name is still free) succeeds. -/
theorem task_name_unique_per_project_not_global
    (db : DB) (p q : Nat) (n author1 author2 : String) (eid1 eid2 : Option String)
    (hp : (db.findProject p).isSome = true)
    (hq : (db.findProject q).isSome = true)
    (hdup : (db.findTaskInProject p n).isSome = true)
    (hfree : db.findTaskInProject q n = none) :
    createTask db p n author1 eid1 = .error .duplicateName ∧
    ∃ db', createTask db q n author2 eid2 = .ok (db', db.nextId) ∧
      db'.findTaskInProject q n = some ⟨db.nextId, q, n, eid2, db.clock⟩ := by
  obtain ⟨pr, hpr⟩ := Option.isSome_iff_exists.mp hp
  obtain ⟨qr, hqr⟩ := Option.isSome_iff_exists.mp hq
  obtain ⟨t0, ht0⟩ := Option.isSome_iff_exists.mp hdup
  constructor
  · simp only [createTask, hpr, ht0]
  · simp only [createTask, hqr, hfree]
    refine ⟨_, rfl, ?_⟩
    simp only [DB.findTaskInProject] at hfree ⊢
    rw [List.find?_append, hfree]
    simp

/-- Witness for C7: `"T1"` again in project `"P"` (id 0) is rejected;
`"T1"` in project `"Q"` (id 1) is created. -/
theorem task_name_unique_per_project_not_global_witness :
    (dbTwoProjects.findProject 0).isSome = true ∧
    (dbTwoProjects.findProject 1).isSome = true ∧
    (dbTwoProjects.findTaskInProject 0 "T1").isSome = true ∧
    dbTwoProjects.findTaskInProject 1 "T1" = none ∧
    createTask dbTwoProjects 0 "T1" "alice" none = .error .duplicateName ∧
    (∃ db', createTask dbTwoProjects 1 "T1" "bob" none = .ok (db', 4) ∧
      db'.findTaskInProject 1 "T1" = some ⟨4, 1, "T1", none, 4⟩) :=
  ⟨rfl, rfl, rfl, rfl,
    (task_name_unique_per_project_not_global dbTwoProjects 0 1 "T1" "alice" "bob"
      none none (by decide) (by decide) (by decide) (by decide)).1,
    (task_name_unique_per_project_not_global dbTwoProjects 0 1 "T1" "alice" "bob"
      none none (by decide) (by decide) (by decide) (by decide)).2⟩

/-! ## C5: merge-commit parent set and head advance -/

/-- **C5.** For every `merge_commit` call where the target branch exists
with non-null head `A` (resolving to commit `cA`) and the source commit
`B` exists (as `cB`), the created merge commit's parent edges are exactly
`(new, A)` and `(new, B)` — so `get_commit_parents` on it returns exactly
those two commits — and the target branch's head is advanced to the new
merge commit's id. `hfresh` and `hfreshc` state that the generated id is
fresh for the edge and commit tables, which `uuid4` guarantees in the
source. -/
theorem merge_commit_parents_are_old_head_and_source
    (db : DB) (taskId : Nat) (targetBranch : String) (source : Nat)
    (message author : String) (b : DBBranch) (A : Nat) (cA cB : DBCommit)
    (hbr : db.getBranch taskId targetBranch = some b)
    (hhead : b.headCommitId = some A)
    (hA : db.getCommit A = some cA)
    (hB : db.getCommit source = some cB)
    (hfresh : ∀ e ∈ db.links, e.childId ≠ db.nextId)
    (hfreshc : ∀ c ∈ db.commits, c.id ≠ db.nextId) :
    ∃ db', mergeCommit db taskId targetBranch source message author
        = .ok (db', db.nextId) ∧
      db'.links = db.links ++ [⟨db.nextId, A⟩, ⟨db.nextId, source⟩] ∧
      db'.links.filter (fun e => e.childId = db.nextId)
        = [⟨db.nextId, A⟩, ⟨db.nextId, source⟩] ∧
      getCommitParents db' db.nextId = [cA, cB] ∧
      db'.getBranch taskId targetBranch
        = some { b with headCommitId := some db.nextId } := by
  have h1 : db.links.filter (fun e => decide (e.childId = db.nextId)) = [] := by
    rw [List.filter_eq_nil_iff]
    intro e he
    simpa using hfresh e he
  have h2 : db.commits.find? (fun x => decide (x.id = db.nextId)) = none := by
    rw [List.find?_eq_none]
    intro x hx
    simpa using hfreshc x hx
  simp only [mergeCommit, hbr, hhead, hB]
  have hflt : ∀ plist : List DBParentLink,
      db.links.filter (fun e => decide (e.childId = db.nextId)) = [] →
      ((db.links ++ plist).filter (fun e => decide (e.childId = db.nextId))
        = plist.filter (fun e => decide (e.childId = db.nextId))) := by
    intro plist hnil
    rw [List.filter_append, hnil, List.nil_append]
  refine ⟨_, rfl, rfl, ?_, ?_, ?_⟩
  · rw [hflt _ h1]
    simp
  · simp only [getCommitParents, DB.getCommit]
    rw [List.find?_append, h2, Option.none_or]
    simp only [List.find?_singleton]
    rw [if_pos (by simp)]
    rw [hflt _ h1]
    simp only [DB.getCommit] at hA hB
    simp [List.filterMap_cons, List.find?_append, hA, hB]
  · simp only [DB.getBranch] at hbr ⊢
    rw [find?_map_of_pred_inv]
    · rw [hbr]
      simp
    · intro a
      by_cases h : a.id = b.id <;> simp [h]

/-- Witness for C5: merging `c2` (id 5) into `main` (head `c1`, id 3) of
the walkthrough scenario's pre-merge state. -/
theorem merge_commit_parents_are_old_head_and_source_witness :
    dbPreMerge.getBranch 1 "main" = some ⟨2, 1, "main", some 3, 2⟩ ∧
    dbPreMerge.getCommit 3 = some ⟨3, 1, "init", "hello", "alice", none, none, 3⟩ ∧
    dbPreMerge.getCommit 5
      = some ⟨5, 1, "work", "hello world", "alice", none, none, 5⟩ ∧
    (∃ db', mergeCommit dbPreMerge 1 "main" 5 "merge feature" "alice"
        = .ok (db', 6) ∧
      db'.links = dbPreMerge.links ++ [⟨6, 3⟩, ⟨6, 5⟩] ∧
      db'.links.filter (fun e => e.childId = 6) = [⟨6, 3⟩, ⟨6, 5⟩] ∧
      getCommitParents db' 6
        = [⟨3, 1, "init", "hello", "alice", none, none, 3⟩,
           ⟨5, 1, "work", "hello world", "alice", none, none, 5⟩] ∧
      db'.getBranch 1 "main" = some ⟨2, 1, "main", some 6, 2⟩) :=
  ⟨by decide, by decide, by decide,
    merge_commit_parents_are_old_head_and_source dbPreMerge 1 "main" 5
      "merge feature" "alice" ⟨2, 1, "main", some 3, 2⟩ 3
      ⟨3, 1, "init", "hello", "alice", none, none, 3⟩
      ⟨5, 1, "work", "hello world", "alice", none, none, 5⟩
      (by decide) (by decide) (by decide) (by decide) (by decide) (by decide)⟩

/-! ## C6: merge commits do not record caller-supplied context -/

/-- Counterexample to C6: in the walkthrough scenario the merge commit
(id 6) stores `full_context = ""` — `merge_commit` accepts no context
argument, so no operator-supplied text blob is recorded (the call supplied
only the message `"merge feature"`). -/
theorem merge_commit_context_not_caller_supplied_cex :
    (dbMergeScenario.getCommit 6).map DBCommit.fullContext = some "" ∧
    (dbMergeScenario.getCommit 6).map DBCommit.message = some "merge feature" := by
  decide

/-- **C6 (amended).** For every successful `merge_commit` call, the created
merge commit's `full_context` is the literal empty string: the function
accepts no context argument and records the constant `""` regardless of
all inputs. -/
theorem merge_commit_context_always_empty
    (db : DB) (taskId : Nat) (targetBranch : String) (source : Nat)
    (message author : String) (db' : DB) (cid : Nat)
    (h : mergeCommit db taskId targetBranch source message author = .ok (db', cid)) :
    db'.commits = db.commits ++
      [⟨cid, taskId, message, "", author, none, none, db.clock⟩] := by
  unfold mergeCommit at h
  split at h
  · exact Except.noConfusion h
  · split at h
    · exact Except.noConfusion h
    · split at h
      · exact Except.noConfusion h
      · cases h
        rfl

/-- Witness for C6: the walkthrough merge appends exactly the empty-context
merge commit to the pre-merge commit table. -/
theorem merge_commit_context_always_empty_witness :
    dbMergeScenario.commits = dbPreMerge.commits ++
      [⟨6, 1, "merge feature", "", "alice", none, none, 6⟩] :=
  merge_commit_context_always_empty dbPreMerge 1 "main" 5 "merge feature" "alice"
    dbMergeScenario 6 (by decide)

/-! ## C8: deleting branches -/

/-- Counterexample to C8: `dbRenamed` is reachable (create project, create
task, rename `main` to `dev`), its task 1 exists, yet
`delete_branch(1, "main")` does not fail with Forbidden — the existence
check precedes the `"main"` guard, so it returns `False` (not found). -/
theorem delete_branch_main_not_always_forbidden_cex :
    Reach dbRenamed ∧ (dbRenamed.findTask 1).isSome = true ∧
    deleteBranch dbRenamed 1 "main" = .ok (dbRenamed, false) := by
  refine ⟨?_, by decide, by decide⟩
  exact Reach.step _ _ (Reach.step _ _ (Reach.step _ _ Reach.init
    (Step.proj _ _ "P" none 0 rfl))
    (Step.task _ _ 0 "T1" "alice" none 1 rfl))
    (Step.renBranch _ _ 1 "main" "dev" (some 2) rfl)

/-- **C8 (amended).** Whenever the task still has a branch named `"main"`,
`delete_branch(task_id, "main")` fails with Forbidden; when no `"main"`
branch exists (possible after a rename) it returns `False` instead of
failing; and `delete_branch` of any other existing branch succeeds,
removing exactly one branch record and no commit (nor any task, project or
parent edge). -/
theorem delete_branch_guard_and_effects (db : DB) (taskId : Nat) (name : String) :
    ((db.getBranch taskId "main").isSome = true →
      deleteBranch db taskId "main" = .error .forbidden) ∧
    (db.getBranch taskId "main" = none →
      deleteBranch db taskId "main" = .ok (db, false)) ∧
    (∀ b, db.getBranch taskId name = some b → name ≠ "main" →
      ∃ db', deleteBranch db taskId name = .ok (db', true) ∧
        db'.commits = db.commits ∧ db'.tasks = db.tasks ∧
        db'.projects = db.projects ∧ db'.links = db.links ∧
        db'.branches.length + 1 = db.branches.length) := by
  refine ⟨?_, ?_, ?_⟩
  · intro h
    obtain ⟨b, hb⟩ := Option.isSome_iff_exists.mp h
    simp [deleteBranch, hb]
  · intro h
    simp [deleteBranch, h]
  · intro b hb hne
    simp only [deleteBranch, hb]
    rw [if_neg hne]
    refine ⟨_, rfl, rfl, rfl, rfl, rfl, ?_⟩
    simp only [DB.getBranch] at hb
    have hmem := List.mem_of_find?_eq_some hb
    have hpa := List.find?_some hb
    rw [List.length_eraseP_of_mem hmem hpa]
    have : 0 < db.branches.length := List.length_pos.mpr (by
      intro hnil
      rw [hnil] at hmem
      cases hmem)
    omega

/-- Witness for C8 (amended): in the two-branch state, deleting `main` is
Forbidden and deleting `feature` removes exactly that one branch record. -/
theorem delete_branch_guard_and_effects_witness :
    deleteBranch dbTwoBranches 1 "main" = .error .forbidden ∧
    (∃ db', deleteBranch dbTwoBranches 1 "feature" = .ok (db', true) ∧
      db'.commits = dbTwoBranches.commits ∧ db'.tasks = dbTwoBranches.tasks ∧
      db'.projects = dbTwoBranches.projects ∧ db'.links = dbTwoBranches.links ∧
      db'.branches.length + 1 = dbTwoBranches.branches.length) :=
  ⟨(delete_branch_guard_and_effects dbTwoBranches 1 "feature").1 (by decide),
   (delete_branch_guard_and_effects dbTwoBranches 1 "feature").2.2
     ⟨3, 1, "feature", none, 3⟩ (by decide) (by decide)⟩

/-! ## C3: the task/main-branch pairing invariant -/

theorem createProject_ok_inv (db db' : DB) (name : String) (pid : Option Nat) (i : Nat)
    (h : createProject db name pid = .ok (db', i)) :
    db'.tasks = db.tasks ∧ db'.branches = db.branches := by
  unfold createProject at h
  split at h
  · exact Except.noConfusion h
  · split at h
    · split at h
      · exact Except.noConfusion h
      · unfold createProject.insert at h
        cases h
        exact ⟨rfl, rfl⟩
    · unfold createProject.insert at h
      cases h
      exact ⟨rfl, rfl⟩

theorem createTask_ok_inv (db db' : DB) (pid : Nat) (name author : String)
    (eid : Option String) (i : Nat)
    (h : createTask db pid name author eid = .ok (db', i)) :
    db'.tasks = db.tasks ++ [⟨db.nextId, pid, name, eid, db.clock⟩] ∧
    db'.branches = db.branches ++
      [⟨db.nextId + 1, db.nextId, "main", none, db.clock + 1⟩] := by
  unfold createTask at h
  split at h
  · exact Except.noConfusion h
  · split at h
    · exact Except.noConfusion h
    · cases h
      exact ⟨rfl, rfl⟩

theorem createBranch_ok_inv (db db' : DB) (tid : Nat) (nm : String)
    (fcid : Option Nat) (i : Nat)
    (h : createBranch db tid nm fcid = .ok (db', i)) :
    db'.tasks = db.tasks ∧
    db'.branches = db.branches ++ [⟨db.nextId, tid, nm, fcid, db.clock⟩] := by
  unfold createBranch at h
  split at h
  · exact Except.noConfusion h
  · split at h
    · exact Except.noConfusion h
    · cases h
      exact ⟨rfl, rfl⟩

theorem deleteBranch_ok_inv (db db' : DB) (tid : Nat) (nm : String) (r : Bool)
    (h : deleteBranch db tid nm = .ok (db', r)) :
    db'.tasks = db.tasks ∧
    (db'.branches = db.branches ∨
      (nm ≠ "main" ∧
        db'.branches = db.branches.eraseP
          (fun b => b.taskId = tid ∧ b.name = nm))) := by
  unfold deleteBranch at h
  split at h
  · cases h
    exact ⟨rfl, .inl rfl⟩
  · split at h
    · exact Except.noConfusion h
    · cases h
      refine ⟨rfl, .inr ⟨?_, rfl⟩⟩
      assumption

theorem createCommit_ok_inv (db db' : DB) (tid : Nat)
    (bn msg ctx author : String) (cl unc : Option Int) (i : Nat)
    (h : createCommit db tid bn msg ctx author cl unc = .ok (db', i)) :
    db'.tasks = db.tasks ∧
    ∃ bid cid, db'.branches = db.branches.map
      (fun br => if br.id = bid then { br with headCommitId := some cid } else br) := by
  unfold createCommit at h
  split at h
  · exact Except.noConfusion h
  · split at h
    · exact Except.noConfusion h
    · rename_i b heq
      cases h
      exact ⟨rfl, b.id, db.nextId, rfl⟩

theorem mergeCommit_ok_inv (db db' : DB) (tid : Nat) (tb : String) (src : Nat)
    (msg author : String) (i : Nat)
    (h : mergeCommit db tid tb src msg author = .ok (db', i)) :
    db'.tasks = db.tasks ∧
    ∃ bid cid, db'.branches = db.branches.map
      (fun br => if br.id = bid then { br with headCommitId := some cid } else br) := by
  unfold mergeCommit at h
  split at h
  · exact Except.noConfusion h
  · rename_i b heq
    split at h
    · exact Except.noConfusion h
    · split at h
      · exact Except.noConfusion h
      · cases h
        exact ⟨rfl, b.id, db.nextId, rfl⟩

theorem stepNR_preserves_mainInv (db db' : DB) (hs : StepNR db db')
    (hi : MainInv db) : MainInv db' := by
  cases hs with
  | proj name pid i h =>
    obtain ⟨ht, hb⟩ := createProject_ok_inv _ _ _ _ _ h
    intro t htm
    rw [ht] at htm
    obtain ⟨b, hbm, h1, h2⟩ := hi t htm
    exact ⟨b, by rw [hb]; exact hbm, h1, h2⟩
  | task pid name author eid i h =>
    obtain ⟨ht, hb⟩ := createTask_ok_inv _ _ _ _ _ _ _ h
    intro t htm
    rw [ht] at htm
    rcases List.mem_append.mp htm with hold | hnew
    · obtain ⟨b, hbm, h1, h2⟩ := hi t hold
      exact ⟨b, by rw [hb]; exact List.mem_append_left _ hbm, h1, h2⟩
    · have ht' : t = ⟨db.nextId, pid, name, eid, db.clock⟩ := by simpa using hnew
      subst ht'
      exact ⟨⟨db.nextId + 1, db.nextId, "main", none, db.clock + 1⟩,
        by rw [hb]; exact List.mem_append_right _ (by simp), rfl, rfl⟩
  | branch tid nm fcid i h =>
    obtain ⟨ht, hb⟩ := createBranch_ok_inv _ _ _ _ _ _ h
    intro t htm
    rw [ht] at htm
    obtain ⟨b, hbm, h1, h2⟩ := hi t htm
    exact ⟨b, by rw [hb]; exact List.mem_append_left _ hbm, h1, h2⟩
  | delBranch tid nm r h =>
    obtain ⟨ht, hb⟩ := deleteBranch_ok_inv _ _ _ _ _ h
    intro t htm
    rw [ht] at htm
    obtain ⟨b, hbm, h1, h2⟩ := hi t htm
    rcases hb with hb | ⟨hne, hb⟩
    · exact ⟨b, by rw [hb]; exact hbm, h1, h2⟩
    · refine ⟨b, ?_, h1, h2⟩
      rw [hb]
      refine (List.mem_eraseP_of_neg ?_).mpr hbm
      simp only [h2, decide_eq_true_eq]
      intro hc
      exact hne hc.2.symm
  | commit tid bn msg ctx author cl unc i h =>
    obtain ⟨ht, bid, cid, hb⟩ := createCommit_ok_inv _ _ _ _ _ _ _ _ _ _ h
    intro t htm
    rw [ht] at htm
    obtain ⟨b, hbm, h1, h2⟩ := hi t htm
    refine ⟨if b.id = bid then { b with headCommitId := some cid } else b, ?_, ?_, ?_⟩
    · rw [hb]
      exact List.mem_map_of_mem _ hbm
    · by_cases hid : b.id = bid <;> simp [hid, h1]
    · by_cases hid : b.id = bid <;> simp [hid, h2]
  | merge tid tb src msg author i h =>
    obtain ⟨ht, bid, cid, hb⟩ := mergeCommit_ok_inv _ _ _ _ _ _ _ _ h
    intro t htm
    rw [ht] at htm
    obtain ⟨b, hbm, h1, h2⟩ := hi t htm
    refine ⟨if b.id = bid then { b with headCommitId := some cid } else b, ?_, ?_, ?_⟩
    · rw [hb]
      exact List.mem_map_of_mem _ hbm
    · by_cases hid : b.id = bid <;> simp [hid, h1]
    · by_cases hid : b.id = bid <;> simp [hid, h2]

/-- Counterexample to C3: the state reached by create-project, create-task,
then `rename_branch(task, "main", "dev")` is reachable by the core
operations, yet its task has no branch named `"main"` — `rename_branch` has
no guard protecting `"main"`. -/
theorem reachable_task_without_main_cex : Reach dbRenamed ∧ ¬ MainInv dbRenamed := by
  refine ⟨?_, by decide⟩
  exact Reach.step _ _ (Reach.step _ _ (Reach.step _ _ Reach.init
    (Step.proj _ _ "P" none 0 rfl))
    (Step.task _ _ 0 "T1" "alice" none 1 rfl))
    (Step.renBranch _ _ 1 "main" "dev" (some 2) rfl)

/-- **C3 (amended).** In every state reachable by task creation, branch
create/delete, commit, and merge — with `rename_branch` excluded — every
existing Task has a Branch named `"main"`. (Renaming can strip a task of
its `main` branch, as the counterexample shows.) -/
theorem reachable_without_rename_tasks_have_main (db : DB) (h : ReachNR db) :
    MainInv db := by
  induction h with
  | init => intro t ht; cases ht
  | step db1 db2 hr hs ih => exact stepNR_preserves_mainInv _ _ hs ih

/-- Witness for C3 (amended): the create-project/create-task state is
reachable without renames and satisfies the invariant. -/
theorem reachable_without_rename_tasks_have_main_witness : MainInv dbBase :=
  reachable_without_rename_tasks_have_main dbBase
    (ReachNR.step _ _ (ReachNR.step _ _ ReachNR.init
      (StepNR.proj _ _ "P" none 0 rfl))
      (StepNR.task _ _ 0 "T1" "alice" none 1 rfl))

/-! ## C9: termination of the project-hierarchy recursion -/

theorem option_mapM_eq_none_of_mem {α β : Type} (f : α → Option β) (l : List α)
    (a : α) (ha : a ∈ l) (hf : f a = none) : l.mapM f = none := by
  rw [← List.mapM'_eq_mapM]
  induction l with
  | nil => cases ha
  | cons x xs ih =>
    rcases List.mem_cons.mp ha with rfl | hm
    · simp [hf]
    · cases hx : f x <;> simp [hx, ih hm]

theorem option_mapM_isSome_of_all {α β : Type} (f : α → Option β) (l : List α)
    (h : ∀ a ∈ l, (f a).isSome = true) : (l.mapM f).isSome = true := by
  rw [← List.mapM'_eq_mapM]
  induction l with
  | nil => simp
  | cons x xs ih =>
    obtain ⟨b, hb⟩ := Option.isSome_iff_exists.mp (h x (List.mem_cons_self x xs))
    obtain ⟨bs, hbs⟩ := Option.isSome_iff_exists.mp
      (ih (fun a ha => h a (List.mem_cons_of_mem _ ha)))
    simp [hb, hbs]

theorem hierFuel_cyclic_none : ∀ fuel,
    getProjectHierarchyFuel dbCyclic fuel 0 = none ∧
    getProjectHierarchyFuel dbCyclic fuel 1 = none := by
  intro fuel
  induction fuel with
  | zero => exact ⟨rfl, rfl⟩
  | succ n ih =>
    have hc0 : dbCyclic.listChildProjects 0 = [⟨1, "B", some 0, 1⟩] := by decide
    have hc1 : dbCyclic.listChildProjects 1 = [⟨0, "A", some 1, 0⟩] := by decide
    have hm0 : (([⟨1, "B", some 0, 1⟩] : List DBProject).mapM
        (fun c => getProjectHierarchyFuel dbCyclic n c.id)) = none :=
      option_mapM_eq_none_of_mem _ _ ⟨1, "B", some 0, 1⟩ (by simp) ih.2
    have hm1 : (([⟨0, "A", some 1, 0⟩] : List DBProject).mapM
        (fun c => getProjectHierarchyFuel dbCyclic n c.id)) = none :=
      option_mapM_eq_none_of_mem _ _ ⟨0, "A", some 1, 0⟩ (by simp) ih.1
    unfold List.mapM at hm0 hm1
    constructor
    · simp only [getProjectHierarchyFuel, hc0]
      rw [show dbCyclic.findProject 0 = some ⟨0, "A", some 1, 0⟩ from rfl]
      simp [hm0]
    · simp only [getProjectHierarchyFuel, hc1]
      rw [show dbCyclic.findProject 1 = some ⟨1, "B", some 0, 1⟩ from rfl]
      simp [hm1]

/-- Counterexample to C9: on the cyclic two-project store, the recursion of
`get_project_hierarchy` never returns — no recursion depth (fuel) is
enough. (In CPython the symptom is a `RecursionError` once the interpreter
recursion limit is hit, not an assembled tree.) -/
theorem hierarchy_cycle_never_returns_cex :
    ¬ ∃ fuel t, getProjectHierarchyFuel dbCyclic fuel 0 = some t := by
  rintro ⟨fuel, t, h⟩
  rw [(hierFuel_cyclic_none fuel).1] at h
  exact Option.noConfusion h

/-- **C9 (amended).** `get_project_hierarchy` terminates for every stored
project structure whose parent links admit a decreasing rank (equivalently,
are acyclic): fuel `rank id + 1` suffices. On a cyclic structure the
recursion does not terminate (see the counterexample). -/
theorem hierarchy_terminates_on_acyclic (db : DB) (pid : Nat) (rank : Nat → Nat)
    (hr : ∀ p ∈ db.projects, ∀ q, p.parentId = some q → rank p.id < rank q) :
    (getProjectHierarchyFuel db (rank pid + 1) pid).isSome = true := by
  suffices H : ∀ k pid, rank pid < k →
      (getProjectHierarchyFuel db k pid).isSome = true from
    H _ _ (Nat.lt_succ_self _)
  intro k
  induction k with
  | zero => intro pid hk; exact absurd hk (Nat.not_lt_zero _)
  | succ m ih =>
    intro pid hk
    rcases hp : db.findProject pid with _ | p
    · simp [getProjectHierarchyFuel, hp]
    · have hall : ∀ c ∈ db.listChildProjects pid,
          (getProjectHierarchyFuel db m c.id).isSome = true := by
        intro c hc
        have hcf : c ∈ db.projects.filter (fun x => x.parentId = some pid) := by
          have hperm := List.perm_insertionSort
            (fun a b : DBProject => a.name ≤ b.name) (db.projects.filter
              (fun x => x.parentId = some pid))
          exact hperm.mem_iff.mp hc
        have hcmem : c ∈ db.projects := List.mem_of_mem_filter hcf
        have hcp : c.parentId = some pid := by
          have := List.of_mem_filter hcf
          simpa using this
        have hlt : rank c.id < rank pid := hr c hcmem pid hcp
        exact ih c.id (by omega)
      obtain ⟨ts, hts⟩ := Option.isSome_iff_exists.mp
        (option_mapM_isSome_of_all _ _ hall)
      unfold List.mapM at hts
      simp [getProjectHierarchyFuel, hp, hts]

/-- Witness for C9 (amended): on the acyclic two-project store, rank
`A ↦ 1, B ↦ 0` satisfies the decrease condition and fuel 2 returns a
tree from the root. -/
theorem hierarchy_terminates_on_acyclic_witness :
    (∀ p ∈ dbAcyclicPair.projects, ∀ q, p.parentId = some q →
      (if p.id = 0 then 1 else 0) < (if q = 0 then 1 else 0)) ∧
    (getProjectHierarchyFuel dbAcyclicPair 2 0).isSome = true :=
  ⟨by decide,
    hierarchy_terminates_on_acyclic dbAcyclicPair 0
      (fun i => if i = 0 then 1 else 0) (by decide)⟩

/-! ## C2: `limit` bounds depth, not the number of commits -/

theorem cteRows_depth_bound (db : DB) : ∀ (n : Nat) (f : List Nat) (d0 : Nat)
    (r : Nat × Nat), r ∈ db.cteRows f d0 n → d0 ≤ r.2 ∧ r.2 ≤ d0 + n := by
  intro n
  induction n with
  | zero =>
    intro f d0 r hr
    simp only [DB.cteRows] at hr
    obtain ⟨i, _, rfl⟩ := List.mem_map.mp hr
    omega
  | succ m ih =>
    intro f d0 r hr
    simp only [DB.cteRows] at hr
    rcases List.mem_append.mp hr with h1 | h2
    · obtain ⟨i, _, rfl⟩ := List.mem_map.mp h1
      omega
    · have := ih (db.expandStep f) (d0 + 1) r h2
      omega

/-- Counterexample to C2: in the walkthrough scenario (a merge at the
head), `get_history` with `limit = 2` returns 3 distinct commits — the
head at depth 1 plus both parents at depth 2 — exceeding the limit. -/
theorem get_history_can_exceed_limit_cex :
    (getHistoryIds dbMergeScenario 1 "main" 2).dedup.length = 3 ∧ 2 < 3 := by
  decide

/-- **C2 (amended).** `limit` bounds the traversal depth, not the number of
emitted commits: every row `get_history(task, branch, limit)` returns lies
at a depth between 1 and `max limit 1` (the head row at depth 1 is emitted
before the `depth < limit` guard is tested), and within one level several
parents may be emitted, so the number of distinct commits can exceed
`limit`. -/
theorem get_history_depth_bounded (db : DB) (taskId : Nat) (branchName : String)
    (limit : Nat) (r : Nat × Nat)
    (hr : r ∈ getHistory db taskId branchName limit) :
    1 ≤ r.2 ∧ r.2 ≤ max limit 1 := by
  unfold getHistory at hr
  rcases hb : db.getBranch taskId branchName with _ | b
  · simp only [hb] at hr
    cases hr
  · simp only [hb] at hr
    rcases hh : b.headCommitId with _ | h
    · simp only [hh] at hr
      cases hr
    · simp only [hh] at hr
      have hmem := (List.perm_insertionSort _ _).mem_iff.mp hr
      have := cteRows_depth_bound db (limit - 1)
        (if (db.getCommit h).isSome then [h] else []) 1 r hmem
      omega

/-- Witness for C2 (amended): the head row of the limited walkthrough
history sits at depth 1 ≤ max 2 1. -/
theorem get_history_depth_bounded_witness :
    (6, 1) ∈ getHistory dbMergeScenario 1 "main" 2 ∧
    1 ≤ (6, 1).2 ∧ (6, 1).2 ≤ max 2 1 :=
  ⟨by decide,
    get_history_depth_bounded dbMergeScenario 1 "main" 2 (6, 1) (by decide)⟩

/-! ## C1: the CTE does not deduplicate — it counts paths -/

theorem count_map_pair (f : List Nat) (d0 c d : Nat) :
    ((f.map (fun i => (i, d0))).count (c, d)) = if d = d0 then f.count c else 0 := by
  induction f with
  | nil => simp
  | cons x xs ih =>
    simp only [List.map_cons, List.count_cons, ih, beq_iff_eq, Prod.mk.injEq]
    by_cases h1 : d = d0
    · subst h1
      by_cases h2 : c = x
      · subst h2; simp
      · simp [h2]
    · simp [h1]
      exact fun _ hh => h1 hh.symm

theorem cteLevel_shift (db : DB) (f : List Nat) : ∀ n : Nat,
    db.cteLevel (db.expandStep f) n = db.cteLevel f (n + 1)
  | 0 => rfl
  | n + 1 => by
    show db.expandStep (db.cteLevel (db.expandStep f) n)
      = db.expandStep (db.cteLevel f (n + 1))
    rw [cteLevel_shift db f n]

theorem cteRows_count (db : DB) : ∀ (n : Nat) (f : List Nat) (d0 c d : Nat),
    (db.cteRows f d0 n).count (c, d)
      = if d0 ≤ d ∧ d ≤ d0 + n then (db.cteLevel f (d - d0)).count c else 0 := by
  intro n
  induction n with
  | zero =>
    intro f d0 c d
    simp only [DB.cteRows]
    rw [count_map_pair]
    by_cases h : d = d0
    · subst h
      rw [if_pos rfl, if_pos (by omega)]
      simp [DB.cteLevel]
    · rw [if_neg h, if_neg (by omega)]
  | succ m ih =>
    intro f d0 c d
    simp only [DB.cteRows, List.count_append]
    rw [count_map_pair, ih (db.expandStep f) (d0 + 1) c d]
    by_cases h : d = d0
    · subst h
      rw [if_pos rfl, if_neg (by omega), if_pos (by omega)]
      simp [DB.cteLevel]
    · rw [if_neg h]
      by_cases h2 : d0 + 1 ≤ d ∧ d ≤ d0 + 1 + m
      · rw [if_pos h2, if_pos (by omega), cteLevel_shift]
        have he : d - (d0 + 1) + 1 = d - d0 := by omega
        rw [he, Nat.zero_add]
      · rw [if_neg h2, if_neg (by omega)]

theorem foldr_add_eq_sum_map {α : Type} (F : α → Nat) (l : List α) :
    l.foldr (fun b acc => F b + acc) 0 = (l.map F).sum := by
  induction l with
  | nil => rfl
  | cons x xs ih => simp [ih]

theorem sum_map_flatMap {α β : Type} (g : α → List β) (F : β → Nat) (l : List α) :
    ((l.flatMap g).map F).sum = (l.map (fun a => ((g a).map F).sum)).sum := by
  induction l with
  | nil => rfl
  | cons x xs ih => simp [List.flatMap_cons, ih]

theorem count_eq_sum_map_ite (f : List Nat) (c : Nat) :
    f.count c = (f.map (fun a => if a = c then 1 else 0)).sum := by
  induction f with
  | nil => rfl
  | cons x xs ih =>
    simp only [List.count_cons, List.map_cons, List.sum_cons, ih, beq_iff_eq]
    by_cases h : x = c
    · subst h; simp [Nat.add_comm]
    · simp [h, fun hh : c = x => h hh.symm]

theorem cteLevel_count_paths (db : DB) : ∀ (n : Nat) (f : List Nat) (c : Nat),
    (db.cteLevel f n).count c = (f.map (fun a => db.pathCount n a c)).sum := by
  intro n
  induction n with
  | zero =>
    intro f c
    simp only [DB.cteLevel, DB.pathCount]
    exact count_eq_sum_map_ite f c
  | succ m ih =>
    intro f c
    rw [← cteLevel_shift, ih (db.expandStep f) c]
    simp only [DB.expandStep]
    rw [sum_map_flatMap]
    congr 1
    apply List.map_congr_left
    intro a _
    simp only [DB.pathCount]
    rw [foldr_add_eq_sum_map]

/-- Counterexample to C1: in the walkthrough scenario the commit graph is a
diamond (paths `6 → 3` and `6 → 5 → 3` from the head to ancestor 3), and
`get_history` returns commit 3 twice — once at depth 2 and once at depth 3
— instead of once at the depth of its first encounter. -/
theorem get_history_duplicates_diamond_ancestor_cex :
    (dbMergeScenario.getBranch 1 "main").isSome = true ∧
    dbMergeScenario.pathCount 1 6 3 = 1 ∧
    dbMergeScenario.pathCount 2 6 3 = 1 ∧
    (getHistoryIds dbMergeScenario 1 "main" 100).count 3 = 2 ∧
    (getHistory dbMergeScenario 1 "main" 100).count (3, 2) = 1 ∧
    (getHistory dbMergeScenario 1 "main" 100).count (3, 3) = 1 := by
  decide

/-- **C1 (amended).** The traversal does not deduplicate: for every branch
with a resolvable non-null head, the number of times `get_history` emits
the row `(c, d)` (commit `c` at depth `d`, for `d` within the emitted depth
range) equals the number of backward ancestry paths of length `d − 1` from
the head to `c` — so a diamond's common ancestor appears once per path, at
each path's depth, rather than once at the depth of first encounter. -/
theorem get_history_counts_paths_per_depth (db : DB) (taskId : Nat)
    (branchName : String) (limit : Nat) (b : DBBranch) (h c d : Nat)
    (hbr : db.getBranch taskId branchName = some b)
    (hhead : b.headCommitId = some h)
    (hres : (db.getCommit h).isSome = true)
    (hd1 : 1 ≤ d) (hd2 : d ≤ max limit 1) :
    (getHistory db taskId branchName limit).count (c, d)
      = db.pathCount (d - 1) h c := by
  unfold getHistory
  simp only [hbr, hhead, hres, if_true]
  rw [List.count_eq_countP,
    (List.perm_insertionSort (fun a b => db.rowLE a b = true)
      (db.cteRows [h] 1 (limit - 1))).countP_eq,
    ← List.count_eq_countP]
  rw [cteRows_count db (limit - 1) [h] 1 c d]
  rw [if_pos (by omega)]
  rw [cteLevel_count_paths]
  simp

/-- Witness for C1 (amended): commit 3 at depth 2 of the walkthrough
history is emitted exactly `pathCount 1 6 3 = 1` times. -/
theorem get_history_counts_paths_per_depth_witness :
    dbMergeScenario.getBranch 1 "main" = some ⟨2, 1, "main", some 6, 2⟩ ∧
    (dbMergeScenario.getCommit 6).isSome = true ∧
    (getHistory dbMergeScenario 1 "main" 100).count (3, 2)
      = dbMergeScenario.pathCount 1 6 3 :=
  ⟨by decide, by decide,
    get_history_counts_paths_per_depth dbMergeScenario 1 "main" 100
      ⟨2, 1, "main", some 6, 2⟩ 6 3 2 (by decide) (by decide) (by decide)
      (by decide) (by decide)⟩
